import Mathlib

/-!
Shallow embedding of the settings store of `portal_setting/src/lib.rs`
(crate `portal_setting` of meta-flutter/xdg-portal-settings-minimal).

Modelling choices:
* `Value` models `zbus::zvariant::OwnedValue`: a dynamically typed D-Bus
  value.  The constructors cover the basic D-Bus types the store can carry
  (fixed integers, boolean, double, the string-like types, structures,
  arrays and boxed variants).  A double is carried as its IEEE-754 bit
  pattern (a `Nat`); the code never computes with doubles, it only stores
  them and inspects type signatures, so the bit pattern is a faithful
  representation and `0.0` is bit pattern `0`.
* `Value.value_signature` models `OwnedValue::value_signature().as_str()`:
  the D-Bus type signature string ("u" for u32, "(ddd)" for a structure of
  three doubles, ...).
* The `HashMap<SettingKey, SettingValue>` behind the `RwLock` is modelled
  as an association list with unique keys; `tableInsert` models
  `HashMap::insert` (replace or add), `tableGet` models `HashMap::get`.
  `SettingValue`s clone (`try_clone().unwrap()`) is the identity on these
  pure values.
* `Result<()>` from `anyhow` is modelled as `Except String Unit`, the
  error carrying the `bail!` message.
* The async lock is erased: each operation is a pure function of the table
  state, `write` returning the result together with the successor state.
-/

/-- Models `SettingKey`: the namespace and key for a setting
(`namespace` is a Lean keyword, so the field is called `ns`). -/
structure SettingKey where
  ns : String
  key : String
deriving DecidableEq

/-- Models `SettingKey::new`. -/
def SettingKey.new (ns key : String) : SettingKey := ⟨ns, key⟩

/-- Models `zvariant::OwnedValue`, the dynamically typed value stored for a
setting. -/
inductive Value where
  | u8 (v : Nat)
  | boolV (b : Bool)
  | i16 (v : Int)
  | u16 (v : Nat)
  | i32 (v : Int)
  | u32 (v : Nat)
  | i64 (v : Int)
  | u64 (v : Nat)
  | f64 (bits : Nat)
  | str (s : String)
  | objectPath (p : String)
  | signatureV (s : String)
  | arrayV (elemSig : String) (vs : List Value)
  | structV (vs : List Value)
  | variantV (v : Value)

mutual

/-- The characters of the D-Bus type signature of a value. -/
def Value.sigChars : Value → List Char
  | .u8 _ => ['y']
  | .boolV _ => ['b']
  | .i16 _ => ['n']
  | .u16 _ => ['q']
  | .i32 _ => ['i']
  | .u32 _ => ['u']
  | .i64 _ => ['x']
  | .u64 _ => ['t']
  | .f64 _ => ['d']
  | .str _ => ['s']
  | .objectPath _ => ['o']
  | .signatureV _ => ['g']
  | .arrayV es _ => 'a' :: es.data
  | .structV vs => '(' :: Value.sigCharsList vs ++ [')']
  | .variantV _ => ['v']

/-- Signature characters of the fields of a structure, concatenated. -/
def Value.sigCharsList : List Value → List Char
  | [] => []
  | v :: vs => Value.sigChars v ++ Value.sigCharsList vs

end

/-- Models `OwnedValue::value_signature().as_str()`. -/
def Value.value_signature (v : Value) : String := ⟨v.sigChars⟩

/-- The settings table: models the `HashMap<SettingKey, SettingValue>`
inside `SettingsStore` (an association list with unique keys). -/
abbrev SettingsStore := List (SettingKey × Value)

/-- Models `HashMap::get` on the settings table. -/
def tableGet : SettingsStore → SettingKey → Option Value
  | [], _ => none
  | (k0, v0) :: rest, k => if k0 = k then some v0 else tableGet rest k

/-- Models `HashMap::insert` on the settings table: replace the entry for
the key if present, otherwise add it. -/
def tableInsert : SettingsStore → SettingKey → Value → SettingsStore
  | [], k, v => [(k, v)]
  | (k0, v0) :: rest, k, v =>
      if k0 = k then (k, v) :: rest else (k0, v0) :: tableInsert rest k v

/-- Models `SettingsStore::new`: the table seeded with the 11 default
entries (insertion order as in the source; order is irrelevant to lookup). -/
def SettingsStore.new : SettingsStore :=
  [ (SettingKey.new "org.freedesktop.appearance" "color-scheme", Value.u32 0),
    (SettingKey.new "org.freedesktop.appearance" "accent-color",
      Value.structV [Value.f64 0, Value.f64 0, Value.f64 0]),
    (SettingKey.new "org.freedesktop.appearance" "contrast", Value.u32 0),
    (SettingKey.new "org.gnome.desktop.interface" "gtk-theme", Value.str "Adwaita"),
    (SettingKey.new "org.gnome.desktop.interface" "icon-theme", Value.str "Adwaita"),
    (SettingKey.new "org.gnome.desktop.interface" "cursor-theme", Value.str "Adwaita"),
    (SettingKey.new "org.gnome.desktop.interface" "font-name", Value.str "Cantarell 11"),
    (SettingKey.new "org.gnome.desktop.interface" "monospace-font-name",
      Value.str "Source Code Pro 10"),
    (SettingKey.new "org.gnome.desktop.interface" "clock-format", Value.str "24h"),
    (SettingKey.new "org.gnome.desktop.privacy" "remember-recent-files", Value.boolV true),
    (SettingKey.new "org.gnome.desktop.privacy" "recent-files-max-age", Value.i32 30) ]

/-- Models `SettingsStore::read` (the clone of the stored value is the
identity on these pure values). -/
def SettingsStore.read (s : SettingsStore) (ns key : String) : Option Value :=
  tableGet s (SettingKey.new ns key)

/-- Models `SettingsStore::validate_setting`.  `u32::try_from`,
`bool::try_from` and `i32::try_from` on an `OwnedValue` succeed exactly
when the value is of that exact variant, so they are modelled by matching
on the corresponding constructor. -/
def SettingsStore.validate_setting (ns key : String) (value : Value) :
    Except String Unit :=
  match ns, key with
  | "org.freedesktop.appearance", "color-scheme" =>
      match value with
      | .u32 v => if v ≤ 2 then .ok () else .error "color-scheme must be u32 (0-2)"
      | _ => .error "color-scheme must be u32 (0-2)"
  | "org.freedesktop.appearance", "accent-color" =>
      if value.value_signature = "(ddd)" then .ok ()
      else .error "accent-color must be (f64, f64, f64) tuple"
  | "org.freedesktop.appearance", "contrast" =>
      match value with
      | .u32 v => if v ≤ 1 then .ok () else .error "contrast must be u32 (0-1)"
      | _ => .error "contrast must be u32 (0-1)"
  | "org.gnome.desktop.interface", "gtk-theme"
  | "org.gnome.desktop.interface", "icon-theme"
  | "org.gnome.desktop.interface", "cursor-theme"
  | "org.gnome.desktop.interface", "font-name"
  | "org.gnome.desktop.interface", "monospace-font-name" =>
      if value.value_signature = "s" then .ok ()
      else .error (key ++ " must be a string")
  | "org.gnome.desktop.interface", "clock-format" =>
      if value.value_signature = "s" then .ok ()
      else .error "clock-format must be \x2712h\x27 or \x2724h\x27"
  | "org.gnome.desktop.privacy", "remember-recent-files" =>
      match value with
      | .boolV _ => .ok ()
      | _ => .error "remember-recent-files must be a boolean"
  | "org.gnome.desktop.privacy", "recent-files-max-age" =>
      match value with
      | .i32 _ => .ok ()
      | _ => .error "recent-files-max-age must be an i32"
  | _, _ => .ok ()

/-- Models `SettingsStore::write`: validate, then insert under the lock.
Returns the `Result<()>` together with the successor table state (the
untouched state on a validation error). -/
def SettingsStore.write (s : SettingsStore) (ns key : String) (value : Value) :
    Except String Unit × SettingsStore :=
  match SettingsStore.validate_setting ns key value with
  | .error e => (.error e, s)
  | .ok _ => (.ok (), tableInsert s (SettingKey.new ns key) value)

/-- The nested result of `read_all`: namespace to (key to value), as
association lists. -/
abbrev ReadAllResult := List (String × List (String × Value))

/-- `HashMap::insert` on an inner (key to value) map. -/
def innerInsert : List (String × Value) → String → Value → List (String × Value)
  | [], key, v => [(key, v)]
  | (k0, v0) :: rest, key, v =>
      if k0 = key then (key, v) :: rest else (k0, v0) :: innerInsert rest key v

/-- Models `result.entry(ns).or_default().insert(key, v)`. -/
def raInsert : ReadAllResult → String → String → Value → ReadAllResult
  | [], ns, key, v => [(ns, [(key, v)])]
  | (n0, m0) :: rest, ns, key, v =>
      if n0 = ns then (n0, innerInsert m0 key v) :: rest
      else (n0, m0) :: raInsert rest ns key v

/-- The loop body of `read_all` over the table entries, carrying the
result accumulator. -/
def readAllGo (namespaces : List String) : List (SettingKey × Value) → ReadAllResult → ReadAllResult
  | [], res => res
  | (k, v) :: rest, res =>
      readAllGo namespaces rest
        (if namespaces = [] ∨ k.ns ∈ namespaces then raInsert res k.ns k.key v else res)

/-- Models `SettingsStore::read_all`: every entry whose namespace passes
the filter (`namespaces.is_empty() || namespaces.contains(..)`) is grouped
into the nested result. -/
def SettingsStore.read_all (s : SettingsStore) (namespaces : List String) :
    ReadAllResult :=
  readAllGo namespaces s []

/-- Lookup in an inner (key to value) map of a `read_all` result. -/
def innerGet : List (String × Value) → String → Option Value
  | [], _ => none
  | (k0, v0) :: rest, key => if k0 = key then some v0 else innerGet rest key

/-- Lookup of one value in a `read_all` result. -/
def raGet : ReadAllResult → String → String → Option Value
  | [], _, _ => none
  | (n0, m0) :: rest, ns, key =>
      if n0 = ns then innerGet m0 key else raGet rest ns key

/-- The namespace filter of `read_all`: an empty filter admits every
namespace, otherwise the namespace must be listed. -/
def filterOk (namespaces : List String) (ns : String) : Prop :=
  namespaces = [] ∨ ns ∈ namespaces

instance (namespaces : List String) (ns : String) : Decidable (filterOk namespaces ns) := by
  unfold filterOk
  infer_instance

/-- Whether a namespace occurs (as a group) in a `read_all` result. -/
def raHasNs (res : ReadAllResult) (ns : String) : Prop :=
  ns ∈ res.map Prod.fst

instance (res : ReadAllResult) (ns : String) : Decidable (raHasNs res ns) := by
  unfold raHasNs; infer_instance

/-- The keys of the table are pairwise distinct (the `HashMap` invariant). -/
def DistinctKeys (s : SettingsStore) : Prop :=
  s.Pairwise (fun a b => a.1 ≠ b.1)

instance (s : SettingsStore) : Decidable (DistinctKeys s) := by
  unfold DistinctKeys
  infer_instance

/-- Spec-side transcription of the §4 validation table (the words of the
spec, for comparison with the code-derived
`SettingsStore.validate_setting`): a value is acceptable for a pair iff,
whenever the pair matches one of the 11 rules, the value has the required
type and range; pairs with no rule accept everything. -/
def specAccepts (ns key : String) (v : Value) : Prop :=
  (ns = "org.freedesktop.appearance" ∧ key = "color-scheme" →
    ∃ n, v = Value.u32 n ∧ (n = 0 ∨ n = 1 ∨ n = 2)) ∧
  (ns = "org.freedesktop.appearance" ∧ key = "accent-color" →
    ∃ a b c, v = Value.structV [Value.f64 a, Value.f64 b, Value.f64 c]) ∧
  (ns = "org.freedesktop.appearance" ∧ key = "contrast" →
    ∃ n, v = Value.u32 n ∧ (n = 0 ∨ n = 1)) ∧
  (ns = "org.gnome.desktop.interface" ∧
      (key = "gtk-theme" ∨ key = "icon-theme" ∨ key = "cursor-theme" ∨
        key = "font-name" ∨ key = "monospace-font-name" ∨ key = "clock-format") →
    ∃ t, v = Value.str t) ∧
  (ns = "org.gnome.desktop.privacy" ∧ key = "remember-recent-files" →
    ∃ b, v = Value.boolV b) ∧
  (ns = "org.gnome.desktop.privacy" ∧ key = "recent-files-max-age" →
    ∃ n, v = Value.i32 n)

/-- Whether one list of characters is a prefix of another. -/
def listPrefixOf : List Char → List Char → Bool
  | [], _ => true
  | _ :: _, [] => false
  | a :: as1, b :: bs => a == b && listPrefixOf as1 bs

/-- Whether one list of characters occurs inside another. -/
def listInfixOf (t : List Char) : List Char → Bool
  | [] => listPrefixOf t []
  | c :: rest => listPrefixOf t (c :: rest) || listInfixOf t rest

/-- Whether `token` occurs as a substring of `msg` (used to state what a
validation error message carries). -/
def msgContains (msg token : String) : Bool := listInfixOf token.data msg.data

/-- The 11 known (namespace, key) pairs: exactly the pairs seeded by
`SettingsStore::new`. -/
def knownPairs : List SettingKey := SettingsStore.new.map Prod.fst

/-- The table states reachable from construction by any sequence of store
operations (`read` and `read_all` do not change the table, so only `write`
steps appear). -/
inductive Reachable : SettingsStore → Prop where
  | new : Reachable SettingsStore.new
  | write (s : SettingsStore) (ns key : String) (v : Value) :
      Reachable s → Reachable (SettingsStore.write s ns key v).2

/-- The data-model invariant of §3: every known pair is present, and every
stored value passes the validation rule of its pair (pairs with no rule
accept everything, so `validate_setting` returning `ok` states both). -/
def StoreInvariant (s : SettingsStore) : Prop :=
  (∀ k ∈ knownPairs, (tableGet s k).isSome = true) ∧
  (∀ k v, tableGet s k = some v →
    SettingsStore.validate_setting k.ns k.key v = Except.ok ())

theorem tableGet_insert (s : SettingsStore) (k0 : SettingKey) (v0 : Value)
    (k : SettingKey) :
    tableGet (tableInsert s k0 v0) k = if k0 = k then some v0 else tableGet s k := by
  induction s with
  | nil => simp [tableInsert, tableGet]
  | cons p rest ih =>
      obtain ⟨k1, v1⟩ := p
      by_cases h1 : k1 = k0
      · subst h1
        by_cases h2 : k1 = k <;> simp [tableInsert, tableGet, h2]
      · by_cases h2 : k1 = k
        · subst h2
          have h3 : ¬ k0 = k1 := fun h => h1 h.symm
          simp [tableInsert, tableGet, h1, h3]
        · simp [tableInsert, tableGet, h1, h2, ih]

theorem write_fst (s : SettingsStore) (ns key : String) (v : Value) :
    (SettingsStore.write s ns key v).1 = SettingsStore.validate_setting ns key v := by
  unfold SettingsStore.write
  cases h : SettingsStore.validate_setting ns key v <;> simp

theorem write_snd_of_error (s : SettingsStore) (ns key : String) (v : Value)
    (e : String) (h : SettingsStore.validate_setting ns key v = .error e) :
    (SettingsStore.write s ns key v).2 = s := by
  unfold SettingsStore.write
  rw [h]

theorem write_snd_of_ok (s : SettingsStore) (ns key : String) (v : Value)
    (h : SettingsStore.validate_setting ns key v = .ok ()) :
    (SettingsStore.write s ns key v).2 = tableInsert s (SettingKey.new ns key) v := by
  unfold SettingsStore.write
  rw [h]

/-- Claim C2: immediately after construction, `read` returns a present
value for each of the 11 documented (namespace, key) pairs, equal to the
documented default (`0.0` is double bit pattern `0`). -/
theorem seed_defaults_complete :
    SettingsStore.read SettingsStore.new "org.freedesktop.appearance" "color-scheme"
      = some (Value.u32 0) ∧
    SettingsStore.read SettingsStore.new "org.freedesktop.appearance" "accent-color"
      = some (Value.structV [Value.f64 0, Value.f64 0, Value.f64 0]) ∧
    SettingsStore.read SettingsStore.new "org.freedesktop.appearance" "contrast"
      = some (Value.u32 0) ∧
    SettingsStore.read SettingsStore.new "org.gnome.desktop.interface" "gtk-theme"
      = some (Value.str "Adwaita") ∧
    SettingsStore.read SettingsStore.new "org.gnome.desktop.interface" "icon-theme"
      = some (Value.str "Adwaita") ∧
    SettingsStore.read SettingsStore.new "org.gnome.desktop.interface" "cursor-theme"
      = some (Value.str "Adwaita") ∧
    SettingsStore.read SettingsStore.new "org.gnome.desktop.interface" "font-name"
      = some (Value.str "Cantarell 11") ∧
    SettingsStore.read SettingsStore.new "org.gnome.desktop.interface" "monospace-font-name"
      = some (Value.str "Source Code Pro 10") ∧
    SettingsStore.read SettingsStore.new "org.gnome.desktop.interface" "clock-format"
      = some (Value.str "24h") ∧
    SettingsStore.read SettingsStore.new "org.gnome.desktop.privacy" "remember-recent-files"
      = some (Value.boolV true) ∧
    SettingsStore.read SettingsStore.new "org.gnome.desktop.privacy" "recent-files-max-age"
      = some (Value.i32 30) :=
  ⟨rfl, rfl, rfl, rfl, rfl, rfl, rfl, rfl, rfl, rfl, rfl⟩

/-- Claim C3: a write rejected with a validation error leaves the table
completely unchanged — every subsequent read returns exactly what it
returned before — and the resulting state is the old state, so the store
stays fully usable. -/
theorem rejected_write_changes_nothing (s : SettingsStore) (ns key : String)
    (v : Value) (e : String)
    (h : (SettingsStore.write s ns key v).1 = Except.error e) :
    (SettingsStore.write s ns key v).2 = s ∧
    ∀ ns2 key2, SettingsStore.read (SettingsStore.write s ns key v).2 ns2 key2
      = SettingsStore.read s ns2 key2 := by
  rw [write_fst] at h
  refine ⟨write_snd_of_error s ns key v e h, ?_⟩
  intro ns2 key2
  rw [write_snd_of_error s ns key v e h]

/-- Witness for claim C3 at a concrete rejected write: writing `5` to
color-scheme fails and the value read afterwards is the old one. -/
theorem rejected_write_changes_nothing_witness :
    SettingsStore.read
      (SettingsStore.write SettingsStore.new "org.freedesktop.appearance" "color-scheme"
        (Value.u32 5)).2 "org.freedesktop.appearance" "color-scheme"
      = SettingsStore.read SettingsStore.new "org.freedesktop.appearance" "color-scheme" :=
  (rejected_write_changes_nothing SettingsStore.new "org.freedesktop.appearance"
    "color-scheme" (Value.u32 5) "color-scheme must be u32 (0-2)" rfl).2
    "org.freedesktop.appearance" "color-scheme"

/-- Claim C4: every accepted write — including one to an unknown pair with
a value of any type — is observed unmodified by an immediately following
read of the same pair. -/
theorem write_then_read (s : SettingsStore) (ns key : String) (v : Value)
    (h : (SettingsStore.write s ns key v).1 = Except.ok ()) :
    SettingsStore.read (SettingsStore.write s ns key v).2 ns key = some v := by
  rw [write_fst] at h
  rw [write_snd_of_ok s ns key v h]
  unfold SettingsStore.read
  rw [tableGet_insert]
  simp

/-- Witness for claim C4 at a concrete accepted write of a boolean to an
unknown (namespace, key) pair. -/
theorem write_then_read_witness :
    SettingsStore.read
      (SettingsStore.write SettingsStore.new "com.example.custom" "anything"
        (Value.boolV true)).2 "com.example.custom" "anything"
      = some (Value.boolV true) :=
  write_then_read SettingsStore.new "com.example.custom" "anything"
    (Value.boolV true) rfl

/-- Claim C10: a successful write modifies only the written pair; any
other (namespace, key) pair reads the same value after the write as
before. -/
theorem write_frame (s : SettingsStore) (ns key : String) (v : Value)
    (ns2 key2 : String)
    (hok : (SettingsStore.write s ns key v).1 = Except.ok ())
    (hne : ¬ (ns2 = ns ∧ key2 = key)) :
    SettingsStore.read (SettingsStore.write s ns key v).2 ns2 key2
      = SettingsStore.read s ns2 key2 := by
  rw [write_fst] at hok
  rw [write_snd_of_ok s ns key v hok]
  unfold SettingsStore.read
  rw [tableGet_insert]
  rw [if_neg]
  intro hk
  apply hne
  have h1 : ns = ns2 := congrArg SettingKey.ns hk
  have h2 : key = key2 := congrArg SettingKey.key hk
  exact ⟨h1.symm, h2.symm⟩

/-- Witness for claim C10: after an accepted write to color-scheme, the
gtk-theme entry is unchanged. -/
theorem write_frame_witness :
    SettingsStore.read
      (SettingsStore.write SettingsStore.new "org.freedesktop.appearance" "color-scheme"
        (Value.u32 1)).2 "org.gnome.desktop.interface" "gtk-theme"
      = SettingsStore.read SettingsStore.new "org.gnome.desktop.interface" "gtk-theme" :=
  write_frame SettingsStore.new "org.freedesktop.appearance" "color-scheme"
    (Value.u32 1) "org.gnome.desktop.interface" "gtk-theme" rfl
    (by intro h; exact absurd h.1 (by decide))

/-- Claim C7: validation failure is the only failure path.  The outcome of
`write` is exactly the outcome of validation (so any error it returns is a
validation error, and on any such error the state is unchanged and the
store stays usable), and `read` always completes with either a present
value or a normal absent result. -/
theorem only_validation_fails (s : SettingsStore) (ns key : String) (v : Value) :
    (SettingsStore.write s ns key v).1 = SettingsStore.validate_setting ns key v ∧
    ((SettingsStore.write s ns key v).1 = Except.ok () ∨
      ∃ e, (SettingsStore.write s ns key v).1 = Except.error e ∧
        (SettingsStore.write s ns key v).2 = s) ∧
    ((SettingsStore.read s ns key).isSome = true ∨ SettingsStore.read s ns key = none) := by
  refine ⟨write_fst s ns key v, ?_, ?_⟩
  · cases h : SettingsStore.validate_setting ns key v with
    | error e =>
        right
        exact ⟨e, by rw [write_fst, h], write_snd_of_error s ns key v e h⟩
    | ok u =>
        left
        rw [write_fst, h]
  · cases h : SettingsStore.read s ns key with
    | none => right; rfl
    | some v2 => left; simp [h]

theorem sigChars_ne_nil (v : Value) : v.sigChars ≠ [] := by
  cases v <;> simp [Value.sigChars]

theorem sigChars_head_d (v : Value) (t : List Char) (h : v.sigChars = 'd' :: t) :
    ∃ bits, v = Value.f64 bits ∧ t = [] := by
  cases v <;>
    first
      | exact ⟨_, rfl, (congrArg List.tail h).symm⟩
      | simp [Value.sigChars] at h

theorem sigCharsList_replicate (vs : List Value) : ∀ n : Nat,
    Value.sigCharsList vs = List.replicate n 'd' →
    ∃ bs : List Nat, vs = bs.map Value.f64 ∧ bs.length = n := by
  induction vs with
  | nil =>
      intro n h
      simp only [Value.sigCharsList] at h
      have hn : n = 0 := by
        cases n with
        | zero => rfl
        | succ m => rw [List.replicate_succ] at h; exact absurd h (by simp)
      subst hn
      exact ⟨[], rfl, rfl⟩
  | cons v rest ih =>
      intro n h
      simp only [Value.sigCharsList] at h
      cases n with
      | zero =>
          rw [List.replicate] at h
          rw [List.append_eq_nil] at h
          exact absurd h.1 (sigChars_ne_nil v)
      | succ m =>
          rw [List.replicate_succ] at h
          cases hs : Value.sigChars v with
          | nil => exact absurd hs (sigChars_ne_nil v)
          | cons c t =>
              rw [hs, List.cons_append] at h
              obtain ⟨hc1, hc2⟩ := List.cons.inj h
              obtain ⟨bits, hv, ht⟩ := sigChars_head_d v t (by rw [hs, hc1])
              subst ht
              rw [List.nil_append] at hc2
              obtain ⟨bs, hbs, hlen⟩ := ih m hc2
              exact ⟨bits :: bs, by rw [hv, hbs]; rfl, by simp [hlen]⟩

theorem value_signature_eq (v : Value) (lit : String) :
    v.value_signature = lit ↔ v.sigChars = lit.data :=
  ⟨fun h => congrArg String.data h, fun h => congrArg String.mk h⟩

theorem sig_ddd_iff (v : Value) :
    v.value_signature = "(ddd)" ↔
    ∃ a b c, v = Value.structV [Value.f64 a, Value.f64 b, Value.f64 c] := by
  rw [value_signature_eq]
  have hd : "(ddd)".data = ['(', 'd', 'd', 'd', ')'] := rfl
  rw [hd]
  constructor
  · intro h
    cases v with
    | structV vs =>
        simp only [Value.sigChars] at h
        obtain ⟨_, h2⟩ := List.cons.inj h
        have h3 : Value.sigCharsList vs ++ [')'] = ['d', 'd', 'd'] ++ [')'] := h2
        have h4 : Value.sigCharsList vs = List.replicate 3 'd' :=
          List.append_cancel_right h3
        obtain ⟨bs, hbs, hlen⟩ := sigCharsList_replicate vs 3 h4
        match bs, hlen with
        | [a, b, c], _ => exact ⟨a, b, c, by rw [hbs]; rfl⟩
    | _ => simp [Value.sigChars] at h
  · rintro ⟨a, b, c, rfl⟩
    rfl

theorem sig_s_iff (v : Value) :
    v.value_signature = "s" ↔ ∃ t, v = Value.str t := by
  rw [value_signature_eq]
  have hd : "s".data = ['s'] := rfl
  rw [hd]
  constructor
  · intro h
    cases v <;> first | exact ⟨_, rfl⟩ | simp [Value.sigChars] at h
  · rintro ⟨t, rfl⟩
    rfl

theorem if_ok_iff (c : Prop) [Decidable c] (e : String) :
    ((if c then Except.ok () else Except.error e) = (Except.ok () : Except String Unit)) ↔ c := by
  split <;> simp_all

theorem validate_ok_iff (ns key : String) (v : Value) :
    SettingsStore.validate_setting ns key v = Except.ok () ↔ specAccepts ns key v := by
  unfold SettingsStore.validate_setting
  split
  · cases v <;> simp [specAccepts, if_ok_iff]
    omega
  · rw [if_ok_iff, sig_ddd_iff]
    simp [specAccepts]
  · cases v <;> simp [specAccepts, if_ok_iff]
    omega
  · rw [if_ok_iff, sig_s_iff]
    simp [specAccepts]
  · rw [if_ok_iff, sig_s_iff]
    simp [specAccepts]
  · rw [if_ok_iff, sig_s_iff]
    simp [specAccepts]
  · rw [if_ok_iff, sig_s_iff]
    simp [specAccepts]
  · rw [if_ok_iff, sig_s_iff]
    simp [specAccepts]
  · rw [if_ok_iff, sig_s_iff]
    simp [specAccepts]
  · cases v <;> simp [specAccepts]
  · cases v <;> simp [specAccepts]
  · rename_i h1 h2 h3 h4 h5 h6 h7 h8 h9 h10 h11
    refine ⟨fun _ => ?_, fun _ => rfl⟩
    refine ⟨?_, ?_, ?_, ?_, ?_, ?_⟩ <;> rintro ⟨ha, hb⟩
    · exact (h1 ha hb).elim
    · exact (h2 ha hb).elim
    · exact (h3 ha hb).elim
    · rcases hb with hb | hb | hb | hb | hb | hb
      exacts [(h4 ha hb).elim, (h5 ha hb).elim, (h6 ha hb).elim,
        (h7 ha hb).elim, (h8 ha hb).elim, (h9 ha hb).elim]
    · exact (h10 ha hb).elim
    · exact (h11 ha hb).elim

/-- Claim C1: a write is rejected with a validation error exactly when the
(namespace, key) pair matches one of the 11 rules of the spec table and
the value fails that rule's type/range check (clock-format only requires a
string; unknown pairs accept every value of every type). -/
theorem write_validation_iff (s : SettingsStore) (ns key : String) (v : Value) :
    (∃ e, (SettingsStore.write s ns key v).1 = Except.error e) ↔
    ¬ specAccepts ns key v := by
  rw [write_fst]
  cases h : SettingsStore.validate_setting ns key v with
  | error e =>
      constructor
      · intro _ hacc
        have h2 := (validate_ok_iff ns key v).mpr hacc
        rw [h] at h2
        exact Except.noConfusion h2
      · intro _
        exact ⟨e, rfl⟩
  | ok u =>
      cases u
      constructor
      · rintro ⟨e, he⟩
        exact Except.noConfusion he
      · intro hn
        exact ((hn ((validate_ok_iff ns key v).mp h)).elim)

/-- Counterexample for claim C8: the validation error produced by writing
`5` to color-scheme does not contain the offending namespace
`org.freedesktop.appearance` anywhere in its message, so validation errors
do not carry the namespace. -/
theorem validation_error_lacks_namespace :
    (SettingsStore.write SettingsStore.new "org.freedesktop.appearance" "color-scheme"
      (Value.u32 5)).1 = Except.error "color-scheme must be u32 (0-2)" ∧
    msgContains "color-scheme must be u32 (0-2)" "org.freedesktop.appearance" = false :=
  ⟨rfl, by decide⟩

/-- Claim C8 as amended: every validation error returned by `write`
carries the offending key and a human-readable description of the expected
type/range (each message is of the form `<key> must be <expected ...>`),
but not the offending namespace. -/
theorem validation_error_carries_key (s : SettingsStore) (ns key : String)
    (v : Value) (e : String)
    (h : (SettingsStore.write s ns key v).1 = Except.error e) :
    msgContains e key = true ∧ msgContains e "must be" = true := by
  rw [write_fst] at h
  unfold SettingsStore.validate_setting at h
  split at h
  · split at h
    · split at h
      · exact Except.noConfusion h
      · cases Except.error.inj h
        exact ⟨by decide, by decide⟩
    · cases Except.error.inj h
      exact ⟨by decide, by decide⟩
  · split at h
    · exact Except.noConfusion h
    · cases Except.error.inj h
      exact ⟨by decide, by decide⟩
  · split at h
    · split at h
      · exact Except.noConfusion h
      · cases Except.error.inj h
        exact ⟨by decide, by decide⟩
    · cases Except.error.inj h
      exact ⟨by decide, by decide⟩
  · split at h
    · exact Except.noConfusion h
    · cases Except.error.inj h
      exact ⟨by decide, by decide⟩
  · split at h
    · exact Except.noConfusion h
    · cases Except.error.inj h
      exact ⟨by decide, by decide⟩
  · split at h
    · exact Except.noConfusion h
    · cases Except.error.inj h
      exact ⟨by decide, by decide⟩
  · split at h
    · exact Except.noConfusion h
    · cases Except.error.inj h
      exact ⟨by decide, by decide⟩
  · split at h
    · exact Except.noConfusion h
    · cases Except.error.inj h
      exact ⟨by decide, by decide⟩
  · split at h
    · exact Except.noConfusion h
    · cases Except.error.inj h
      exact ⟨by decide, by decide⟩
  · split at h
    · exact Except.noConfusion h
    · cases Except.error.inj h
      exact ⟨by decide, by decide⟩
  · split at h
    · exact Except.noConfusion h
    · cases Except.error.inj h
      exact ⟨by decide, by decide⟩
  · exact Except.noConfusion h

/-- Witness for the amended claim C8 at a concrete rejected write. -/
theorem validation_error_carries_key_witness :
    msgContains "color-scheme must be u32 (0-2)" "color-scheme" = true ∧
    msgContains "color-scheme must be u32 (0-2)" "must be" = true :=
  validation_error_carries_key SettingsStore.new "org.freedesktop.appearance"
    "color-scheme" (Value.u32 5) "color-scheme must be u32 (0-2)" rfl

theorem innerGet_insert (m : List (String × Value)) (key : String) (v : Value)
    (key2 : String) :
    innerGet (innerInsert m key v) key2 =
      if key = key2 then some v else innerGet m key2 := by
  induction m with
  | nil => simp [innerInsert, innerGet]
  | cons p rest ih =>
      obtain ⟨k0, v0⟩ := p
      by_cases h1 : k0 = key
      · subst h1
        by_cases h2 : k0 = key2 <;> simp [innerInsert, innerGet, h2]
      · by_cases h2 : k0 = key2
        · subst h2
          have h3 : ¬ key = k0 := fun h => h1 h.symm
          simp [innerInsert, innerGet, h1, h3]
        · simp [innerInsert, innerGet, h1, h2, ih]

theorem raGet_insert (res : ReadAllResult) (ns key : String) (v : Value)
    (ns2 key2 : String) :
    raGet (raInsert res ns key v) ns2 key2 =
      if ns = ns2 ∧ key = key2 then some v else raGet res ns2 key2 := by
  induction res with
  | nil =>
      by_cases h1 : ns = ns2
      · subst h1
        by_cases h2 : key = key2 <;> simp [raInsert, raGet, innerGet, h2]
      · simp [raInsert, raGet, h1]
  | cons p rest ih =>
      obtain ⟨n0, m0⟩ := p
      by_cases h0 : n0 = ns
      · subst h0
        by_cases h1 : n0 = ns2
        · subst h1
          by_cases h2 : key = key2 <;>
            simp [raInsert, raGet, innerGet_insert, h2]
        · simp [raInsert, raGet, h1]
      · by_cases h1 : n0 = ns2
        · subst h1
          have h2 : ¬ (ns = n0 ∧ key = key2) := fun hc => h0 hc.1.symm
          simp [raInsert, raGet, h0, h2]
        · simp [raInsert, raGet, h0, h1, ih]

theorem raHasNs_insert (res : ReadAllResult) (ns key : String) (v : Value)
    (ns2 : String) :
    raHasNs (raInsert res ns key v) ns2 ↔ ns2 = ns ∨ raHasNs res ns2 := by
  induction res with
  | nil => simp [raInsert, raHasNs]
  | cons p rest ih =>
      obtain ⟨n0, m0⟩ := p
      by_cases h : n0 = ns
      · subst h
        simp [raInsert, raHasNs]
        try tauto
      · simp [raInsert, raHasNs, h] at ih ⊢
        tauto

theorem innerInsert_ne_nil (m : List (String × Value)) (key : String) (v : Value) :
    innerInsert m key v ≠ [] := by
  cases m with
  | nil => simp [innerInsert]
  | cons p rest =>
      obtain ⟨k0, v0⟩ := p
      unfold innerInsert
      split <;> simp

theorem raInsert_nonempty (res : ReadAllResult) (ns key : String) (v : Value)
    (h : ∀ p ∈ res, p.2 ≠ []) : ∀ p ∈ raInsert res ns key v, p.2 ≠ [] := by
  induction res with
  | nil =>
      intro p hp
      simp [raInsert] at hp
      rw [hp]
      simp
  | cons q rest ih =>
      obtain ⟨n0, m0⟩ := q
      intro p hp
      unfold raInsert at hp
      split at hp
      · rcases List.mem_cons.mp hp with rfl | hp2
        · exact innerInsert_ne_nil m0 key v
        · exact h p (List.mem_cons_of_mem _ hp2)
      · rcases List.mem_cons.mp hp with rfl | hp2
        · exact h (n0, m0) (List.mem_cons_self _ _)
        · exact ih (fun q hq => h q (List.mem_cons_of_mem _ hq)) p hp2

theorem tableGet_eq_none (s : SettingsStore) (k : SettingKey)
    (h : ∀ q ∈ s, q.1 ≠ k) : tableGet s k = none := by
  induction s with
  | nil => rfl
  | cons p rest ih =>
      obtain ⟨k0, v0⟩ := p
      have h1 : k0 ≠ k := h (k0, v0) (List.mem_cons_self _ _)
      rw [show tableGet ((k0, v0) :: rest) k
          = if k0 = k then some v0 else tableGet rest k from rfl, if_neg h1]
      exact ih (fun q hq => h q (List.mem_cons_of_mem _ hq))

theorem readAllGo_get_none (namespaces : List String) :
    ∀ (s : SettingsStore) (res : ReadAllResult) (ns key : String),
    tableGet s (SettingKey.new ns key) = none →
    raGet (readAllGo namespaces s res) ns key = raGet res ns key := by
  intro s
  induction s with
  | nil =>
      intro res ns key _
      simp [readAllGo]
  | cons p rest ih =>
      intro res ns key h
      obtain ⟨k0, v0⟩ := p
      have hk : ¬ k0 = SettingKey.new ns key := by
        intro hk
        rw [show tableGet ((k0, v0) :: rest) (SettingKey.new ns key)
            = if k0 = SettingKey.new ns key then some v0
              else tableGet rest (SettingKey.new ns key) from rfl, if_pos hk] at h
        exact Option.noConfusion h
      have h2 : tableGet rest (SettingKey.new ns key) = none := by
        rw [show tableGet ((k0, v0) :: rest) (SettingKey.new ns key)
            = if k0 = SettingKey.new ns key then some v0
              else tableGet rest (SettingKey.new ns key) from rfl, if_neg hk] at h
        exact h
      simp only [readAllGo]
      rw [ih _ ns key h2]
      split
      · rw [raGet_insert, if_neg]
        rintro ⟨h1, hkey⟩
        apply hk
        obtain ⟨kns, kkey⟩ := k0
        simp only at h1 hkey
        rw [show SettingKey.new ns key = ⟨ns, key⟩ from rfl, ← h1, ← hkey]
      · rfl

theorem readAllGo_get_some (namespaces : List String) :
    ∀ (s : SettingsStore) (res : ReadAllResult) (ns key : String) (v : Value),
    DistinctKeys s →
    tableGet s (SettingKey.new ns key) = some v →
    raGet (readAllGo namespaces s res) ns key =
      (if filterOk namespaces ns then some v else raGet res ns key) := by
  intro s
  induction s with
  | nil =>
      intro res ns key v _ h
      exact absurd h (by simp [tableGet])
  | cons p rest ih =>
      intro res ns key v hd h
      obtain ⟨k0, v0⟩ := p
      obtain ⟨hhead, htail⟩ := List.pairwise_cons.mp hd
      simp only [readAllGo]
      by_cases hk : k0 = SettingKey.new ns key
      · have hv : v0 = v := by
          rw [show tableGet ((k0, v0) :: rest) (SettingKey.new ns key)
              = if k0 = SettingKey.new ns key then some v0
                else tableGet rest (SettingKey.new ns key) from rfl, if_pos hk] at h
          exact Option.some.inj h
        subst hv
        have hrest : tableGet rest (SettingKey.new ns key) = none :=
          tableGet_eq_none rest _ (fun q hq he => (hhead q hq) (hk.trans he.symm))
        rw [readAllGo_get_none namespaces rest _ ns key hrest]
        subst hk
        by_cases hf : filterOk namespaces ns
        · rw [if_pos (show namespaces = [] ∨ (SettingKey.new ns key).ns ∈ namespaces from hf),
            if_pos hf, raGet_insert, if_pos ⟨rfl, rfl⟩]
        · rw [if_neg (show ¬ (namespaces = []
              ∨ (SettingKey.new ns key).ns ∈ namespaces) from hf), if_neg hf]
      · have h2 : tableGet rest (SettingKey.new ns key) = some v := by
          rw [show tableGet ((k0, v0) :: rest) (SettingKey.new ns key)
              = if k0 = SettingKey.new ns key then some v0
                else tableGet rest (SettingKey.new ns key) from rfl, if_neg hk] at h
          exact h
        rw [ih _ ns key v htail h2]
        by_cases hf : filterOk namespaces ns
        · rw [if_pos hf, if_pos hf]
        · rw [if_neg hf, if_neg hf]
          split
          · rw [raGet_insert, if_neg]
            rintro ⟨h1, hkey⟩
            apply hk
            obtain ⟨kns, kkey⟩ := k0
            simp only at h1 hkey
            rw [show SettingKey.new ns key = ⟨ns, key⟩ from rfl, ← h1, ← hkey]
          · rfl

theorem readAllGo_hasNs (namespaces : List String) :
    ∀ (s : SettingsStore) (res : ReadAllResult) (ns : String),
    (raHasNs (readAllGo namespaces s res) ns ↔
      (∃ p ∈ s, p.1.ns = ns ∧ filterOk namespaces ns) ∨ raHasNs res ns) := by
  intro s
  induction s with
  | nil => intro res ns; simp [readAllGo]
  | cons p rest ih =>
      intro res ns
      obtain ⟨k0, v0⟩ := p
      simp only [readAllGo]
      rw [ih]
      by_cases hc : namespaces = [] ∨ k0.ns ∈ namespaces
      · rw [if_pos hc, raHasNs_insert]
        constructor
        · rintro (⟨p, hp, h1, h2⟩ | (h | hr))
          · exact Or.inl ⟨p, List.mem_cons_of_mem _ hp, h1, h2⟩
          · subst h
            exact Or.inl ⟨(k0, v0), List.mem_cons_self _ _, rfl, hc⟩
          · exact Or.inr hr
        · rintro (⟨p, hp, h1, h2⟩ | hr)
          · rcases List.mem_cons.mp hp with rfl | hp2
            · exact Or.inr (Or.inl h1.symm)
            · exact Or.inl ⟨p, hp2, h1, h2⟩
          · exact Or.inr (Or.inr hr)
      · rw [if_neg hc]
        constructor
        · rintro (⟨p, hp, h1, h2⟩ | hr)
          · exact Or.inl ⟨p, List.mem_cons_of_mem _ hp, h1, h2⟩
          · exact Or.inr hr
        · rintro (⟨p, hp, h1, h2⟩ | hr)
          · rcases List.mem_cons.mp hp with rfl | hp2
            · rw [← h1] at h2
              exact absurd h2 hc
            · exact Or.inl ⟨p, hp2, h1, h2⟩
          · exact Or.inr hr

theorem readAllGo_nonempty (namespaces : List String) :
    ∀ (s : SettingsStore) (res : ReadAllResult),
    (∀ p ∈ res, p.2 ≠ []) → ∀ p ∈ readAllGo namespaces s res, p.2 ≠ [] := by
  intro s
  induction s with
  | nil =>
      intro res h
      simpa [readAllGo] using h
  | cons q rest ih =>
      intro res h
      obtain ⟨k0, v0⟩ := q
      simp only [readAllGo]
      apply ih
      split
      · exact raInsert_nonempty res k0.ns k0.key v0 h
      · exact h

/-- Claim C5: for every filter list, `read_all` returns exactly the table
entries whose namespace passes the filter (all of them when the filter is
empty), grouped by namespace; a namespace with no matching entry never
appears, not even with an empty inner mapping.  On a fresh store,
filtering to org.freedesktop.appearance yields only that namespace with 3
entries, and the empty filter yields all 3 seeded namespaces. -/
theorem read_all_spec :
    (∀ (s : SettingsStore), DistinctKeys s → ∀ (namespaces : List String),
      (∀ ns key v, raGet (SettingsStore.read_all s namespaces) ns key = some v ↔
        filterOk namespaces ns ∧ SettingsStore.read s ns key = some v) ∧
      (∀ ns, raHasNs (SettingsStore.read_all s namespaces) ns ↔
        ∃ p ∈ s, p.1.ns = ns ∧ filterOk namespaces ns) ∧
      (∀ p ∈ SettingsStore.read_all s namespaces, p.2 ≠ [])) ∧
    (SettingsStore.read_all SettingsStore.new ["org.freedesktop.appearance"]).map
      (fun p => (p.1, p.2.length)) = [("org.freedesktop.appearance", 3)] ∧
    (SettingsStore.read_all SettingsStore.new []).map Prod.fst =
      ["org.freedesktop.appearance", "org.gnome.desktop.interface",
        "org.gnome.desktop.privacy"] := by
  refine ⟨?_, rfl, rfl⟩
  intro s hd namespaces
  refine ⟨?_, ?_, ?_⟩
  · intro ns key v
    unfold SettingsStore.read_all SettingsStore.read
    cases htg : tableGet s (SettingKey.new ns key) with
    | none =>
        rw [readAllGo_get_none namespaces s [] ns key htg]
        simp [raGet]
    | some w =>
        rw [readAllGo_get_some namespaces s [] ns key w hd htg]
        by_cases hf : filterOk namespaces ns
        · simp [hf]
        · simp [hf, raGet]
  · intro ns
    unfold SettingsStore.read_all
    rw [readAllGo_hasNs namespaces s [] ns]
    simp [raHasNs]
  · exact readAllGo_nonempty namespaces s [] (by simp)

/-- Witness for claim C5: on the fresh store with the appearance-only
filter, the grouped result contains the color-scheme default. -/
theorem read_all_spec_witness :
    raGet (SettingsStore.read_all SettingsStore.new ["org.freedesktop.appearance"])
      "org.freedesktop.appearance" "color-scheme" = some (Value.u32 0) :=
  ((read_all_spec.1 SettingsStore.new (by decide) ["org.freedesktop.appearance"]).1
    "org.freedesktop.appearance" "color-scheme" (Value.u32 0)).mpr
    ⟨Or.inr (by decide), rfl⟩

theorem tableGet_mem : ∀ (s : SettingsStore) (k : SettingKey) (v : Value),
    tableGet s k = some v → (k, v) ∈ s := by
  intro s
  induction s with
  | nil => intro k v h; exact Option.noConfusion h
  | cons p rest ih =>
      intro k v h
      obtain ⟨k0, v0⟩ := p
      by_cases hk : k0 = k
      · subst hk
        rw [show tableGet ((k0, v0) :: rest) k0
            = if k0 = k0 then some v0 else tableGet rest k0 from rfl, if_pos rfl] at h
        cases Option.some.inj h
        exact List.mem_cons_self _ _
      · rw [show tableGet ((k0, v0) :: rest) k
            = if k0 = k then some v0 else tableGet rest k from rfl, if_neg hk] at h
        exact List.mem_cons_of_mem _ (ih k v h)

theorem new_invariant_values : ∀ (k : SettingKey) (v : Value),
    tableGet SettingsStore.new k = some v →
    SettingsStore.validate_setting k.ns k.key v = Except.ok () := by
  intro k v h
  have hm := tableGet_mem _ _ _ h
  simp only [SettingsStore.new, SettingKey.new, List.mem_cons,
    List.not_mem_nil, or_false, Prod.mk.injEq] at hm
  rcases hm with h | h | h | h | h | h | h | h | h | h | h <;>
    · obtain ⟨rfl, rfl⟩ := h
      rfl

/-- Claim C6: in every store state reachable from construction, all 11
known (namespace, key) pairs are present (entries are only ever
overwritten, never deleted) and every stored value passes its pair's
validation rule (pairs without a rule accept any value). -/
theorem reachable_invariant (s : SettingsStore) (h : Reachable s) :
    StoreInvariant s := by
  induction h with
  | new =>
      constructor
      · decide
      · exact new_invariant_values
  | write s0 ns key v hr ih =>
      cases hval : SettingsStore.validate_setting ns key v with
      | error e =>
          rw [write_snd_of_error s0 ns key v e hval]
          exact ih
      | ok u =>
          cases u
          rw [write_snd_of_ok s0 ns key v hval]
          constructor
          · intro k hk
            rw [tableGet_insert]
            split
            · rfl
            · exact ih.1 k hk
          · intro k v2 h2
            rw [tableGet_insert] at h2
            split at h2
            · rename_i heq
              cases heq
              cases Option.some.inj h2
              exact hval
            · exact ih.2 k v2 h2

/-- Witness for claim C6: the invariant applied to the freshly constructed
store shows the color-scheme entry present. -/
theorem reachable_invariant_witness :
    (tableGet SettingsStore.new
      (SettingKey.new "org.freedesktop.appearance" "color-scheme")).isSome = true :=
  (reachable_invariant SettingsStore.new Reachable.new).1
    (SettingKey.new "org.freedesktop.appearance" "color-scheme") (by decide)
